import Mathlib

/-!
Shallow embedding of the m2query repository (src/simpleSQL.py and
src/manycollection_query.py): the query planner (buildSelectors,
buildFilters, findRangeOps, findComparisonOps), the store-side query
builder (getQuery), the join engine (computeJoin) and the limit applier
(computeLimit), together with theorems settling the specification claims.

Modelling conventions, fixed once for the whole file:
* Record field values are modelled by `Value` (Python 2 ints and strings),
  with Python 2 comparison semantics (cross-type order: every int sorts
  before every str, cross-type equality is false).
* A record (a document returned by the store) is an association list of
  field name to value; field access `rec[col]` is total lookup with a
  fixed default, a case no theorem below depends on.
* Python dict iteration is modelled in insertion order, and the per-table
  filter dict built by buildFilters is modelled as an ordered list of
  tagged entries (`OpEntry`), the tag mirroring the generated key names
  rangeop%d / cmpop%d that the source later re-detects by substring search.
* A Python runtime error (IndexError, NameError, TypeError) surfacing from
  a function is modelled by `Option`/`none`.
* The source's regular-expression scans are reimplemented as character
  scanners with the same match semantics on the inputs the program builds.
-/

/-- Python 2 values appearing in records and literals. -/
inductive Value where
  | int : Int → Value
  | str : String → Value
deriving DecidableEq, Repr

/-- Python 2 `==` on ints and strings: cross-type equality is false. -/
def pyEq : Value → Value → Bool
  | .int a, .int b => a == b
  | .str a, .str b => a == b
  | _, _ => false

/-- Python 2 `<`: numeric on ints, lexicographic on strings; across types
Python 2 orders by type name, so every int is below every str. -/
def pyLt : Value → Value → Bool
  | .int a, .int b => decide (a < b)
  | .str a, .str b => decide (a < b)
  | .int _, .str _ => true
  | .str _, .int _ => false

/-- Python 2 `!=`. -/
def pyNe (x y : Value) : Bool := !(pyEq x y)

/-- Python 2 `<=`. -/
def pyLe (x y : Value) : Bool := pyLt x y || pyEq x y

/-- Python 2 `>`. -/
def pyGt (x y : Value) : Bool := pyLt y x

/-- Python 2 `>=`. -/
def pyGe (x y : Value) : Bool := pyLe y x

/-- A record: association list of field name to value. -/
abbrev Rec := List (String × Value)

/-- Field access `rec[col]`, total with a fixed default (see header). -/
def getField (r : Rec) (k : String) : Value :=
  match r.find? (fun p => p.1 == k) with
  | some p => p.2
  | none => .int 0

/-- The character class `[a-zA-Z0-9]` of the source's regexes. -/
def isAlnum (c : Char) : Bool := c.isAlpha || c.isDigit

/-- Does the character list contain `pat` as a contiguous sublist?
Models the non-emptiness of `re.findall` for a literal pattern. -/
def containsSubGo (pat : List Char) : List Char → Bool
  | [] => pat.isEmpty
  | c :: t => pat.isPrefixOf (c :: t) || containsSubGo pat t

/-- `containsSub pat s`: does `s` contain `pat` as a substring? -/
def containsSub (pat s : String) : Bool := containsSubGo pat.data s.data

/-- Worker for `firstDotted`: `pre` is the reversed prefix already read. -/
def firstDottedGo (pre : List Char) : List Char → Option (String × String)
  | [] => none
  | c :: rest =>
    if c == '.' then
      let b := (pre.takeWhile isAlnum).reverse
      let f := rest.takeWhile isAlnum
      if b.isEmpty || f.isEmpty then firstDottedGo (c :: pre) rest
      else some (String.mk b, String.mk f)
    else firstDottedGo (c :: pre) rest

/-- First match of the regex `([a-zA-Z0-9]+)\.([a-zA-Z0-9]+)` in `s`,
as used by computeJoin on both sides of a comparison clause. -/
def firstDotted (s : String) : Option (String × String) := firstDottedGo [] s.data

/-- Worker for `findTableDot`. -/
def findTableDotGo (pre : List Char) : List Char → Option String
  | [] => none
  | c :: rest =>
    if c == '.' then
      let b := (pre.takeWhile isAlnum).reverse
      if b.isEmpty then findTableDotGo (c :: pre) rest
      else some (String.mk b)
    else findTableDotGo (c :: pre) rest

/-- First capture of the regex `([a-zA-Z0-9]+)\.` in `s`, as used by
getQuery to sniff table names on each side of a clause. -/
def findTableDot (s : String) : Option String := findTableDotGo [] s.data

/-- All captures of the regex `tn\.([a-zA-Z0-9]+)` over the character
list, scanning left to right without overlap, exactly as `re.findall`
does. The fuel argument only funds structural recursion; every scan step
consumes at least one character, so fuel equal to the list length never
runs out. -/
def findSelGo (tn : List Char) : Nat → List Char → List String
  | 0, _ => []
  | _, [] => []
  | fuel + 1, c :: t =>
    if tn.isPrefixOf (c :: t) then
      match (c :: t).drop tn.length with
      | '.' :: r2 =>
        let run := r2.takeWhile isAlnum
        if run.isEmpty then findSelGo tn fuel t
        else String.mk run :: findSelGo tn fuel (r2.drop run.length)
      | _ => findSelGo tn fuel t
    else findSelGo tn fuel t

/-- `re.findall('%s\.([a-zA-Z0-9]+)' % tableName, s)`. -/
def findSel (tableName s : String) : List String :=
  findSelGo tableName.data s.data.length s.data

/-- buildSelectors (manycollection_query.py): for each projected column,
append every capture of `tableName\.([a-zA-Z0-9]+)`. -/
def buildSelectors (tableName : String) (columns : List String) : List String :=
  columns.flatMap (fun col => findSel tableName col)

/-- The single-key filter dict `{LHS: {'$op': RHS}}` built by
findComparisonOps. -/
structure CmpClause where
  lhs : String
  binop : String
  rhs : String
deriving DecidableEq, Repr

/-- The single-key filter dict `{col: {'$in': vals}}` built by
findRangeOps. -/
structure RangeClause where
  key : String
  vals : List String
deriving DecidableEq, Repr

/-- The if-chain of findComparisonOps mapping a parsed binary operator to
the canonical MongoDB operator name; `none` when no branch matches. -/
def canonOp (b : String) : Option String :=
  if b == "=" || b == "eq" then some "$eq"
  else if b == "!=" || b == "neq" then some "$ne"
  else if b == "<" || b == "lt" then some "$lt"
  else if b == ">" || b == "gt" then some "$gt"
  else if b == "<=" || b == "lte" then some "$lte"
  else if b == ">=" || b == "gte" then some "$gte"
  else none

/-- The symbolic comparison operators listed in findComparisonOps's sieve. -/
def isCmpSymbol (t : String) : Bool :=
  t == "<" || t == "<=" || t == ">" || t == ">=" || t == "!=" || t == "="

/-- findComparisonOps (manycollection_query.py): returns the indicator
(the table name, or "" when the sieve fails) and the filter dict, which
stays empty when no operator branch matches or unpacking raises the
caught ValueError. -/
def findComparisonOps (tablename : String) (tokens : List String) :
    String × Option CmpClause :=
  let res := tokens.filter
    (fun t => isCmpSymbol t || containsSub (tablename ++ ".") t)
  if res.length == 2 then
    match tokens with
    | [lhs, binOp, rhs] =>
      match canonOp binOp with
      | some op => (tablename, some ⟨lhs, op, rhs⟩)
      | none => (tablename, none)
    | _ => (tablename, none)
  else ("", none)

/-- findRangeOps (manycollection_query.py): `none` models the uncaught
IndexError when `tokens[0]` has no `tablename.col` match. -/
def findRangeOps (tablename : String) (tokens : List String) :
    Option (String × Option RangeClause) :=
  let res := tokens.filter
    (fun t => t == "in" || containsSub (tablename ++ ".") t)
  if res.length == 2 then
    match tokens with
    | [] => none
    | tok0 :: _ =>
      let vals := (tokens.drop 3).take (tokens.length - 4)
      match findSel tablename tok0 with
      | [] => none
      | key :: _ => some (tablename, some ⟨key, vals⟩)
  else some ("", none)

/-- One entry of a table's filter dict. The index mirrors the generated
key names `rangeop%d` / `cmpop%d`; computeJoin and getQuery later detect
the kind by substring search on those names, which the constructor tag
models. A `cmpop` with `none` is the entry holding an empty dict, which
buildFilters records whenever findComparisonOps returns a truthy
indicator with empty filters. -/
inductive OpEntry where
  | rangeop (idx : Nat) (c : RangeClause)
  | cmpop (idx : Nat) (c : Option CmpClause)
deriving DecidableEq, Repr

/-- Worker for buildFilters, threading the term counter. -/
def buildFiltersGo (tablename : String) (counter : Nat) :
    List (List String) → Option (List OpEntry)
  | [] => some []
  | term :: rest =>
    match findRangeOps tablename term with
    | none => none
    | some (ind1, rc) =>
      let (ind2, cc) := findComparisonOps tablename term
      let es :=
        (if ind1 == "" then [] else
          match rc with
          | some c => [OpEntry.rangeop counter c]
          | none => []) ++
        (if ind2 == "" then [] else [OpEntry.cmpop counter cc])
      match buildFiltersGo tablename (counter + 1) rest with
      | none => none
      | some l => some (es ++ l)

/-- buildFilters (manycollection_query.py): the WHERE clause is given as
the list of its condition groups (the elements at the odd indices of
`where[0]`, which the source walks with `range(1, len(where[0]), 2)`),
each condition being its token list. -/
def buildFilters (tablename : String) (whereTerms : List (List String)) :
    Option (List OpEntry) :=
  buildFiltersGo tablename 0 whereTerms

/-- A value of the store-side query dict built by getQuery: either an
`$in` clause (from a rangeop) or a single-operator clause (from a cmpop). -/
inductive MongoVal where
  | inClause (vals : List String)
  | opClause (binop : String) (rhs : String)
deriving DecidableEq, Repr

/-- The collection loop of getQuery building the flat list `d` of
key/value pairs. A cmpop whose inner dict is empty raises IndexError at
`query[opType].values()[0]` (`none`). A cmpop whose key and value both
match `([a-zA-Z0-9]+)\.` is dropped: when both captured names are in
`tables` the source `continue`s, and otherwise it falls through the
if/else without appending. Only a cmpop whose sides do not both match
reaches the `else` branch that appends the clause. -/
def getQueryD (tables : List String) : List OpEntry → Option (List (String × MongoVal))
  | [] => some []
  | e :: rest =>
    match e with
    | .rangeop _ c =>
      (getQueryD tables rest).map (fun l => (c.key, .inClause c.vals) :: l)
    | .cmpop _ none => none
    | .cmpop _ (some c) =>
      match findTableDot c.lhs, findTableDot c.rhs with
      | some a, some b =>
        if a ∈ tables && b ∈ tables then getQueryD tables rest
        else getQueryD tables rest
      | _, _ =>
        (getQueryD tables rest).map (fun l => (c.lhs, .opClause c.binop c.rhs) :: l)

/-- getQuery (manycollection_query.py). The argument `queries` maps a
table name `t` to the inner dict `queries[t][t]` built by buildFilters.
After collecting `d`, the source copies pairs with
`for dummy in range(0, len(d)%2+1): ret.setdefault(d[i], d[i+1]); i += 2`;
`d` always has even length, so `len(d)%2+1 == 1` and only the first
key/value pair is ever copied into the returned query. -/
def getQuery (queries : String → List OpEntry) (tablename : String)
    (tables : List String) : Option (List (String × MongoVal)) :=
  match getQueryD tables (queries tablename) with
  | none => none
  | some d =>
    match d.head? with
    | none => some []
    | some kv => some [kv]

/-- The comparison function type stored in computeJoin's `cmpFn`. -/
abbrev Cmp := Value → Value → Bool

/-- The chain of `if binop == ...` assignments to `cmpFn` in computeJoin:
a recognized operator installs the matching comparison, any other string
leaves `cmpFn` at its previous value (`cur`). Note the not-equal branch
tests `$neq`, while findComparisonOps canonicalizes `!=` to `$ne`. -/
def cmpOfBinop (cur : Option Cmp) (b : String) : Option Cmp :=
  if b == "$eq" then some pyEq
  else if b == "$neq" then some pyNe
  else if b == "$lt" then some pyLt
  else if b == "$lte" then some pyLe
  else if b == "$gt" then some pyGt
  else if b == "$gte" then some pyGe
  else cur

/-- The nested comprehension
`[rec1 for rec1 in table1 for rec2 in table2 if cmpFn(rec1[col1], rec2[col2])]`:
each matching pair emits `rec1`, so a record is repeated once per partner. -/
def crossEval (records : String → List Rec) (f : Cmp)
    (t1 c1 t2 c2 : String) : List Rec :=
  (records t1).flatMap (fun r1 =>
    ((records t2).filter (fun r2 => f (getField r1 c1) (getField r2 c2))).map
      (fun _ => r1))

/-- The inner `for opType in query` loop of computeJoin over one table's
filter entries, threading the state (current `final`, current `cmpFn`).
`none` models a Python crash: IndexError on an empty cmpop dict, or
NameError when `cmpFn` is used before any recognized operator assigned it. -/
def joinEntries (records : String → List Rec) :
    List Rec × Option Cmp → List OpEntry → Option (List Rec × Option Cmp)
  | st, [] => some st
  | st, e :: rest =>
    match e with
    | .rangeop _ _ => joinEntries records st rest
    | .cmpop _ none => none
    | .cmpop _ (some c) =>
      match firstDotted c.lhs, firstDotted c.rhs with
      | some (t1, c1), some (t2, c2) =>
        match cmpOfBinop st.2 c.binop with
        | none => none
        | some f => joinEntries records (crossEval records f t1 c1 t2 c2, some f) rest
      | _, _ => joinEntries records st rest

/-- The outer `for i in tablerange` loop of computeJoin: a table with an
empty filter dict appends its records to `final`; otherwise its entries
are processed by the inner loop, each cross-shaped comparison
overwriting `final` wholesale. -/
def joinTables (records : String → List Rec) (queries : String → List OpEntry) :
    List Rec × Option Cmp → List String → Option (List Rec × Option Cmp)
  | st, [] => some st
  | st, t :: rest =>
    if (queries t).isEmpty then
      joinTables records queries (st.1 ++ records t, st.2) rest
    else
      match joinEntries records st (queries t) with
      | none => none
      | some st2 => joinTables records queries st2 rest

/-- Python 2 runtime values flowing through computeLimit. -/
inductive PyVal where
  | pint : Int → PyVal
  | pstr : String → PyVal
  | pnone : PyVal
deriving DecidableEq, Repr

/-- Python truthiness test used by `if not end` / `if limit`. -/
def pyFalsy : PyVal → Bool
  | .pnone => true
  | .pint n => n == 0
  | .pstr s => s.isEmpty

/-- Python 2 subtraction: defined on two ints, a TypeError (`none`) on
any other operand combination, in particular str - int and None - int. -/
def pySub : PyVal → PyVal → Option PyVal
  | .pint a, .pint b => some (.pint (a - b))
  | _, _ => none

/-- Python slice index normalization: negative indices count from the
end, and both bounds clamp to the valid range. -/
def pyNorm (len0 : Nat) (i : Int) : Nat :=
  if i < 0 then (Int.ofNat len0 + i).toNat
  else min i.toNat len0

/-- Python list slice `l[i:j]`. -/
def pySlice {α : Type} (l : List α) (i j : Int) : List α :=
  (l.take (pyNorm l.length j)).drop (pyNorm l.length i)

/-- computeLimit (manycollection_query.py), statements read at the
author's evident tab stop of four columns:
`start = 0; end = 0;`
`if len(limit) == 4: start = limit[2]`
`start, end = limit[2], limit[4] if len(limit) == 6 else None`
(the tuple assignment overwrites both earlier bindings, leaving `start`
the token string `limit[2]` and `end` either the token string `limit[4]`
or None), then
`if not end: return records[start-1:end-1] else: return records[0:start-1]`.
Both branches subtract an int from a parse token, which is a `str`, so
reaching either return raises TypeError (`none`). -/
def computeLimit (records : List Rec) (limit : List String) : Option (List Rec) :=
  match limit.get? 2 with
  | none => none
  | some s2 =>
    let start : PyVal := .pstr s2
    let endv : PyVal :=
      if limit.length == 6 then
        match limit.get? 4 with
        | some s4 => .pstr s4
        | none => .pnone
      else .pnone
    if pyFalsy endv then
      match pySub start (.pint 1) with
      | some (.pint a) =>
        match pySub endv (.pint 1) with
        | some (.pint b) => some (pySlice records a b)
        | _ => none
      | _ => none
    else
      match pySub start (.pint 1) with
      | some (.pint a) => some (pySlice records 0 a)
      | _ => none

/-- computeJoin (manycollection_query.py). `records` maps each table to
its materialized record list; `queries t` is the inner filter dict
`queries[t][t]`; `limit` is the token list named `limit` in the parse
result, `[]` when the query has no LIMIT clause (the source guards the
final `computeLimit` call with `if limit`). -/
def computeJoin (records : String → List Rec) (queries : String → List OpEntry)
    (tables : List String) (limit : List String) : Option (List Rec) :=
  match joinTables records queries ([], none) tables with
  | none => none
  | some st =>
    if limit.isEmpty then some st.1 else computeLimit st.1 limit

/-- The cross-shaped comparison clauses of one table's filter entries, in
entry order: the cmpops whose key and value both match
`([a-zA-Z0-9]+)\.([a-zA-Z0-9]+)`, i.e. the ones computeJoin evaluates. -/
def crossOfEntries (es : List OpEntry) : List CmpClause :=
  es.filterMap (fun e =>
    match e with
    | .cmpop _ (some c) =>
      if (firstDotted c.lhs).isSome && (firstDotted c.rhs).isSome then some c
      else none
    | _ => none)

/-- All cross-shaped comparison clauses in computeJoin's evaluation
order: FROM-clause table order, then entry order within a table. -/
def crossClauses (queries : String → List OpEntry) (tables : List String) :
    List CmpClause :=
  tables.flatMap (fun t => crossOfEntries (queries t))

/-- The record list produced by evaluating a single cross-shaped clause
on its own (fresh `cmpFn`), the spec's per-predicate join output. -/
def evalCross (records : String → List Rec) (c : CmpClause) : List Rec :=
  match firstDotted c.lhs, firstDotted c.rhs, cmpOfBinop none c.binop with
  | some (t1, c1), some (t2, c2), some f => crossEval records f t1 c1 t2 c2
  | _, _, _ => []

/-- The position and message of a pyparsing ParseException. -/
structure ParseErr where
  loc : Nat
  msg : String
deriving DecidableEq, Repr

/-- What `parse` in simpleSQL.py actually surfaces: the parse result on
success, or the NameError (UnboundLocalError) raised by `return tokens`
after the ParseException was caught and merely printed. -/
inductive PyOutcome (α : Type) where
  | ok : α → PyOutcome α
  | nameError : PyOutcome α
deriving DecidableEq

/-- parse (simpleSQL.py), parametric in the pyparsing combinator
machinery `parseString` (external library). On failure the source prints
the caret line `" "*err.loc + "^\n" + err.msg` and the exception, then
executes `return tokens` with `tokens` unbound; the first component
collects the printed lines, the second the surfaced outcome. -/
def parse {α : Type} (parseString : String → Except ParseErr α) (s : String) :
    List String × PyOutcome α :=
  match parseString s with
  | .ok t => ([], .ok t)
  | .error e =>
    ([String.mk (List.replicate e.loc ' ') ++ "^\n" ++ e.msg, e.msg], .nameError)

/-- An entry the join loop can process without a Python crash: every
entry except a cmpop holding an empty dict. -/
def entryOk : OpEntry → Bool
  | .cmpop _ none => false
  | _ => true

/-- The last element of a list, `none` on the empty list. -/
def lastOf {α : Type} : List α → Option α
  | [] => none
  | [a] => some a
  | _ :: b :: t => lastOf (b :: t)

/-- The state the join loop reaches after processing a run of
cross-shaped clauses from state `st`: unchanged when there are none,
otherwise determined by the last clause alone. -/
def lastState (records : String → List Rec) (l : List CmpClause)
    (st : List Rec × Option Cmp) : List Rec × Option Cmp :=
  match lastOf l with
  | none => st
  | some c => (evalCross records c, cmpOfBinop none c.binop)

/-! Concrete fixtures used by the claim theorems, chosen to match what
the planner produces on small queries over tables A, B, C. -/

/-- A record of table A. -/
def recA : Rec := [("x", Value.int 1), ("y", Value.int 5)]

/-- A record of table B. -/
def recB : Rec := [("x", Value.int 1), ("y", Value.int 9)]

/-- A record of table C. -/
def recC : Rec := [("z", Value.int 7)]

/-- Result sets: one record for each of the tables A, B and C. -/
def recsABC : String → List Rec := fun t =>
  if t == "A" then [recA]
  else if t == "B" then [recB]
  else if t == "C" then [recC]
  else []

/-- The canonical clause of the cross predicate `A.x = B.x`. -/
def clauseEqXX : CmpClause := { lhs := "A.x", binop := "$eq", rhs := "B.x" }

/-- The canonical clause of the cross predicate `A.y < B.y`. -/
def clauseLtYY : CmpClause := { lhs := "A.y", binop := "$lt", rhs := "B.y" }

/-- The canonical clause of the local predicate `A.k = 5`. -/
def clauseLocalK : CmpClause := { lhs := "A.k", binop := "$eq", rhs := "5" }

/-- Filter dicts carrying the cross clause `A.x = B.x` on table A and
`A.y < B.y` on table B, and nothing on any other table. -/
def qsTwoCross : String → List OpEntry := fun t =>
  if t == "A" then [.cmpop 0 (some clauseEqXX)]
  else if t == "B" then [.cmpop 0 (some clauseLtYY)]
  else []

/-- Filter dicts as built from `where A.k = 5`: one local clause on
table A, an empty dict on every other table. -/
def qsLocalA : String → List OpEntry := fun t =>
  if t == "A" then [.cmpop 0 (some clauseLocalK)] else []

/-- Filter dicts as built from `where A.x != B.x`: findComparisonOps
records the clause, canonicalized to `$ne`, on both tables. -/
def qsNeAB : String → List OpEntry := fun t =>
  if t == "A" || t == "B" then
    [.cmpop 0 (some { lhs := "A.x", binop := "$ne", rhs := "B.x" })]
  else []

/-- The filter entries buildFilters produces for table A from
`where A.k in (1,2) and A.j = 5`. -/
def entsC7 : List OpEntry :=
  [.rangeop 0 { key := "k", vals := ["1", "2"] },
   .cmpop 1 (some { lhs := "A.j", binop := "$eq", rhs := "5" })]

/-- A stand-in for pyparsing's parseString rejecting every input at
offset 3 with a fixed message, to exercise the parse wrapper's error
path. -/
def parseFailStub : String → Except ParseErr Unit :=
  fun _ => .error { loc := 3, msg := "Expected select" }

theorem lastOf_cons_of_ne {α : Type} (a : α) {l : List α} (h : l ≠ []) :
    lastOf (a :: l) = lastOf l := by
  cases l with
  | nil => exact absurd rfl h
  | cons b t => rfl

theorem lastOf_cons_isSome {α : Type} (b : α) (t : List α) :
    ∃ c, lastOf (b :: t) = some c := by
  induction t generalizing b with
  | nil => exact ⟨b, rfl⟩
  | cons x xs ih => exact ih x

theorem lastOf_eq_none {α : Type} {l : List α} (h : lastOf l = none) : l = [] := by
  cases l with
  | nil => rfl
  | cons b t =>
    obtain ⟨c, hc⟩ := lastOf_cons_isSome b t
    rw [hc] at h
    cases h

theorem lastOf_append_of_ne {α : Type} (l1 : List α) {l2 : List α} (h : l2 ≠ []) :
    lastOf (l1 ++ l2) = lastOf l2 := by
  induction l1 with
  | nil => rfl
  | cons a l1 ih =>
    have h2 : l1 ++ l2 ≠ [] := by
      intro hx
      exact h (List.append_eq_nil.mp hx).2
    rw [List.cons_append, lastOf_cons_of_ne a h2, ih]

theorem lastState_nil (records : String → List Rec) (st : List Rec × Option Cmp) :
    lastState records [] st = st := rfl

theorem lastState_cons (records : String → List Rec) (c : CmpClause)
    (l : List CmpClause) (st : List Rec × Option Cmp) :
    lastState records (c :: l) st =
      lastState records l (evalCross records c, cmpOfBinop none c.binop) := by
  unfold lastState
  rcases hl : lastOf l with _ | d
  · rw [lastOf_eq_none hl]
    rfl
  · have hne : l ≠ [] := by
      intro hx
      subst hx
      cases hl
    rw [lastOf_cons_of_ne c hne, hl]

theorem lastState_append (records : String → List Rec) (l1 l2 : List CmpClause)
    (st : List Rec × Option Cmp) :
    lastState records (l1 ++ l2) st = lastState records l2 (lastState records l1 st) := by
  rcases hl : lastOf l2 with _ | d
  · rw [lastOf_eq_none hl]
    simp [lastState_nil]
  · have hne : l2 ≠ [] := by
      intro hx
      subst hx
      cases hl
    unfold lastState
    rw [lastOf_append_of_ne l1 hne, hl]

/-- A recognized canonical operator installs the same comparison function
whatever `cmpFn` held before. -/
theorem cmpOfBinop_stable {b : String} (h : (cmpOfBinop none b).isSome)
    (cur : Option Cmp) : cmpOfBinop cur b = cmpOfBinop none b := by
  unfold cmpOfBinop at h ⊢
  split_ifs <;> simp_all

/-- Characterization of the inner entry loop when no entry crashes and
every cross-shaped clause carries a recognized operator: the state is
unchanged if the entry list has no cross-shaped clause, and otherwise is
exactly the evaluation of its last cross-shaped clause. -/
theorem joinEntries_eq (records : String → List Rec) (es : List OpEntry)
    (hok : ∀ e ∈ es, entryOk e)
    (hrec : ∀ c ∈ crossOfEntries es, (cmpOfBinop none c.binop).isSome) :
    ∀ st : List Rec × Option Cmp,
      joinEntries records st es = some (lastState records (crossOfEntries es) st) := by
  induction es with
  | nil => intro st; simp [joinEntries, crossOfEntries, lastState_nil]
  | cons e rest ih =>
    intro st
    have hokr : ∀ x ∈ rest, entryOk x := fun x hx => hok x (List.mem_cons_of_mem e hx)
    match e with
    | .rangeop i c =>
      have hcr : crossOfEntries (OpEntry.rangeop i c :: rest) = crossOfEntries rest := by
        simp [crossOfEntries]
      rw [hcr] at hrec ⊢
      simpa [joinEntries] using ih hokr hrec st
    | .cmpop i none =>
      exact absurd (hok _ (List.mem_cons_self _ _)) (by simp [entryOk])
    | .cmpop i (some c) =>
      rcases h1 : firstDotted c.lhs with _ | ⟨t1, c1⟩
      · have hcr : crossOfEntries (OpEntry.cmpop i (some c) :: rest) = crossOfEntries rest := by
          simp [crossOfEntries, h1]
        rw [hcr] at hrec ⊢
        simpa [joinEntries, h1] using ih hokr hrec st
      · rcases h2 : firstDotted c.rhs with _ | ⟨t2, c2⟩
        · have hcr : crossOfEntries (OpEntry.cmpop i (some c) :: rest) = crossOfEntries rest := by
            simp [crossOfEntries, h1, h2]
          rw [hcr] at hrec ⊢
          simpa [joinEntries, h1, h2] using ih hokr hrec st
        · have hcr : crossOfEntries (OpEntry.cmpop i (some c) :: rest) =
              c :: crossOfEntries rest := by
            simp [crossOfEntries, h1, h2]
          have hsome : (cmpOfBinop none c.binop).isSome :=
            hrec c (by rw [hcr]; exact List.mem_cons_self _ _)
          rcases hf : cmpOfBinop none c.binop with _ | f
          · rw [hf] at hsome; cases hsome
          · have hstep : cmpOfBinop st.2 c.binop = some f := by
              rw [cmpOfBinop_stable hsome st.2, hf]
            have hev : evalCross records c = crossEval records f t1 c1 t2 c2 := by
              simp [evalCross, h1, h2, hf]
            have hrecr : ∀ d ∈ crossOfEntries rest, (cmpOfBinop none d.binop).isSome := by
              intro d hd
              exact hrec d (by rw [hcr]; exact List.mem_cons_of_mem c hd)
            rw [hcr, lastState_cons]
            simp only [joinEntries, h1, h2, hstep]
            rw [ih hokr hrecr (crossEval records f t1 c1 t2 c2, some f), hev, hf]

/-- Characterization of the outer table loop when every table's filter
dict is non-empty (so no table takes the append branch), no entry
crashes, and every cross-shaped clause has a recognized operator. -/
theorem joinTables_eq (records : String → List Rec) (queries : String → List OpEntry)
    (tables : List String)
    (hq : ∀ t ∈ tables, queries t ≠ [])
    (hok : ∀ t ∈ tables, ∀ e ∈ queries t, entryOk e)
    (hrec : ∀ c ∈ crossClauses queries tables, (cmpOfBinop none c.binop).isSome) :
    ∀ st : List Rec × Option Cmp,
      joinTables records queries st tables =
        some (lastState records (crossClauses queries tables) st) := by
  induction tables with
  | nil => intro st; simp [joinTables, crossClauses, lastState_nil]
  | cons t rest ih =>
    intro st
    have hsplit : crossClauses queries (t :: rest) =
        crossOfEntries (queries t) ++ crossClauses queries rest := by
      simp [crossClauses]
    have hqt : queries t ≠ [] := hq t (List.mem_cons_self _ _)
    have hemp : (queries t).isEmpty = false := by
      rcases hx : queries t with _ | ⟨e, es⟩
      · exact absurd hx hqt
      · rfl
    have hrect : ∀ c ∈ crossOfEntries (queries t), (cmpOfBinop none c.binop).isSome := by
      intro c hc
      exact hrec c (by rw [hsplit]; exact List.mem_append_left _ hc)
    have hrecr : ∀ c ∈ crossClauses queries rest, (cmpOfBinop none c.binop).isSome := by
      intro c hc
      exact hrec c (by rw [hsplit]; exact List.mem_append_right _ hc)
    have hqr : ∀ x ∈ rest, queries x ≠ [] := fun x hx => hq x (List.mem_cons_of_mem t hx)
    have hokt : ∀ e ∈ queries t, entryOk e := hok t (List.mem_cons_self _ _)
    have hokr : ∀ x ∈ rest, ∀ e ∈ queries x, entryOk e :=
      fun x hx => hok x (List.mem_cons_of_mem t hx)
    rw [hsplit, lastState_append]
    simp only [joinTables, hemp, Bool.false_eq_true, if_false,
      joinEntries_eq records (queries t) hokt hrect st]
    exact ih hqr hokr hrecr (lastState records (crossOfEntries (queries t)) st)

/-- The outer table loop when every table's filter dict is empty: each
table appends its records, in FROM order. -/
theorem joinTables_all_empty (records : String → List Rec)
    (queries : String → List OpEntry) (tables : List String)
    (hq : ∀ t ∈ tables, queries t = []) :
    ∀ st : List Rec × Option Cmp,
      joinTables records queries st tables =
        some (st.1 ++ tables.flatMap records, st.2) := by
  induction tables with
  | nil => intro st; simp [joinTables]
  | cons t rest ih =>
    intro st
    have hqt : queries t = [] := hq t (List.mem_cons_self _ _)
    have hqr : ∀ x ∈ rest, queries x = [] := fun x hx => hq x (List.mem_cons_of_mem t hx)
    have hemp : (queries t).isEmpty = true := by rw [hqt]; rfl
    simp only [joinTables, hemp, if_true]
    rw [ih hqr (st.1 ++ records t, st.2)]
    simp [List.append_assoc]

/-! ## Claim theorems -/

/-- C1 (counterexample): with the two cross predicates `A.x = B.x` and
`A.y < B.y` over tables A, B and a predicate-free table C, the join
result is not the output of the last cross predicate alone: table C has
an empty filter dict and appends its records after the final overwrite,
so the claim as stated is false. -/
theorem c1_join_last_cross_counterexample :
    2 ≤ (crossClauses qsTwoCross ["A", "B", "C"]).length ∧
    lastOf (crossClauses qsTwoCross ["A", "B", "C"]) = some clauseLtYY ∧
    computeJoin recsABC qsTwoCross ["A", "B", "C"] [] ≠
      some (evalCross recsABC clauseLtYY) := by
  decide

/-- C1 (amended): when more than one cross-shaped predicate reaches the
join, every table's filter dict is non-empty (no table takes the append
branch), no entry holds an empty dict, and every cross-shaped clause
carries an operator computeJoin recognizes, the final record list equals
the output of evaluating only the last cross-shaped clause in evaluation
order (FROM-clause table order, entry order within a table); earlier
cross predicates are overwritten and have no effect. -/
theorem c1_join_last_cross_amended (records : String → List Rec)
    (queries : String → List OpEntry) (tables : List String) (c : CmpClause)
    (hq : ∀ t ∈ tables, queries t ≠ [])
    (hok : ∀ t ∈ tables, ∀ e ∈ queries t, entryOk e)
    (hrec : ∀ d ∈ crossClauses queries tables, (cmpOfBinop none d.binop).isSome)
    (hmany : 2 ≤ (crossClauses queries tables).length)
    (hlast : lastOf (crossClauses queries tables) = some c) :
    computeJoin records queries tables [] = some (evalCross records c) := by
  unfold computeJoin
  rw [joinTables_eq records queries tables hq hok hrec ([], none)]
  simp [lastState, hlast]

/-- C1 (witness): the amended theorem applied to tables A, B carrying
the cross predicates `A.x = B.x` then `A.y < B.y`. -/
theorem c1_join_last_cross_witness :
    2 ≤ (crossClauses qsTwoCross ["A", "B"]).length ∧
    computeJoin recsABC qsTwoCross ["A", "B"] [] =
      some (evalCross recsABC clauseLtYY) :=
  ⟨by decide,
   c1_join_last_cross_amended recsABC qsTwoCross ["A", "B"] clauseLtYY
     (by decide) (by decide) (by decide) (by decide) (by decide)⟩

/-- C2 (code bug): for the cross predicate `A.x != B.x` the planner
canonicalizes `!=` to `$ne`, but computeJoin's operator dispatch tests
`$neq`, so no comparison function is ever assigned and the first use of
`cmpFn` raises NameError: the join crashes instead of emitting the
records whose values differ. -/
theorem c2_ne_cross_predicate_crash :
    findComparisonOps "A" ["A.x", "!=", "B.x"] =
      ("A", some { lhs := "A.x", binop := "$ne", rhs := "B.x" }) ∧
    getField recA "x" ≠ getField recB "y" ∧
    computeJoin recsABC qsNeAB ["A", "B"] [] = none := by
  decide

/-- C3 (counterexample): a WHERE clause holding only the local predicate
`A.k = 5` yields an empty cross-table predicate list, yet the join drops
table A's records entirely (its filter dict is non-empty, so the append
branch is skipped and no cross clause ever writes `final`), so the
result is not the concatenation of the per-table sets. -/
theorem c3_empty_cross_concat_counterexample :
    crossClauses qsLocalA ["A"] = [] ∧
    computeJoin recsABC qsLocalA ["A"] [] ≠ some (["A"].flatMap recsABC) := by
  decide

/-- C3 (amended): when every table's filter dict is empty (the
no-WHERE-clause case, in which the cross-table predicate list is indeed
empty), the join returns the concatenation, in FROM-clause table order,
of every table's materialized records, with no records dropped, added,
or reordered. -/
theorem c3_empty_filters_concat_amended (records : String → List Rec)
    (queries : String → List OpEntry) (tables : List String)
    (hq : ∀ t ∈ tables, queries t = []) :
    computeJoin records queries tables [] = some (tables.flatMap records) := by
  unfold computeJoin
  rw [joinTables_all_empty records queries tables hq ([], none)]
  simp

/-- C3 (witness): the amended theorem applied to tables A, B with no
WHERE clause at all. -/
theorem c3_empty_filters_concat_witness :
    computeJoin recsABC (fun _ => []) ["A", "B"] [] =
      some (["A", "B"].flatMap recsABC) :=
  c3_empty_filters_concat_amended recsABC (fun _ => []) ["A", "B"] (by decide)

/-- C4 (counterexample): for `select A.x, B.x from A, B where A.k = 5`
the WHERE clause is non-empty and purely local, yet the join stage is
not empty: table B's filter dict is empty (buildFilters finds nothing
for B), so B's records are appended to the output. -/
theorem c4_local_only_join_empty_counterexample :
    buildFilters "A" [["A.k", "=", "5"]] = some [OpEntry.cmpop 0 (some clauseLocalK)] ∧
    buildFilters "B" [["A.k", "=", "5"]] = some [] ∧
    computeJoin recsABC qsLocalA ["A", "B"] [] ≠ some [] := by
  decide

/-- C4 (amended): every table whose filter dict is non-empty contributes
no records to the join output; hence when every FROM table has a
non-empty filter dict, none of whose entries is an empty dict, and no
clause is cross-shaped, the join stage returns the empty record list,
whatever records the store returned. -/
theorem c4_local_only_join_empty_amended (records : String → List Rec)
    (queries : String → List OpEntry) (tables : List String)
    (hq : ∀ t ∈ tables, queries t ≠ [])
    (hok : ∀ t ∈ tables, ∀ e ∈ queries t, entryOk e)
    (hcross : crossClauses queries tables = []) :
    computeJoin records queries tables [] = some [] := by
  unfold computeJoin
  have hrec : ∀ c ∈ crossClauses queries tables, (cmpOfBinop none c.binop).isSome := by
    rw [hcross]
    intro c hc
    cases hc
  rw [joinTables_eq records queries tables hq hok hrec ([], none)]
  simp [lastState, hcross, lastOf]

/-- C4 (witness): the amended theorem applied to the single filtered
table A with the local predicate `A.k = 5`. -/
theorem c4_local_only_join_empty_witness :
    crossClauses qsLocalA ["A"] = [] ∧
    computeJoin recsABC qsLocalA ["A"] [] = some [] :=
  ⟨by decide,
   c4_local_only_join_empty_amended recsABC qsLocalA ["A"]
     (by decide) (by decide) (by decide)⟩

/-- C5 (code bug): `LIMIT (2,4)` on a three-record list does not return
the records at zero-based indices 1 and 2: computeLimit receives the
parse tokens, and both of its branches subtract an int from a token
string (the Range branch returns `records[0:start-1]`, which also
ignores `stop`), so the call raises TypeError instead. -/
theorem c5_limit_range_crash :
    computeLimit [recA, recB, recC] ["limit", "(", "2", ",", "4", ")"] = none ∧
    computeJoin recsABC (fun _ => []) ["A"] ["limit", "(", "2", ",", "4", ")"] = none := by
  decide

/-- C6 (code bug): `LIMIT (2)` on a three-record list does not return
the first two records: the Count branch computes
`records[start-1:end-1]` with `start` the token string "2" and `end`
None, so the call raises TypeError instead of slicing a prefix. -/
theorem c6_limit_count_crash :
    computeLimit [recA, recB, recC] ["limit", "(", "2", ")"] = none ∧
    computeJoin recsABC (fun _ => []) ["A"] ["limit", "(", "2", ")"] = none := by
  decide

/-- C7 (code bug): for table A with the two local predicates
`A.k in (1,2)` and `A.j = 5`, the store-side query built by getQuery
holds only the first collected clause: the copy loop runs
`range(0, len(d)%2+1)` which is a single iteration for the always-even
`d`, so every clause after the first is silently omitted. -/
theorem c7_getquery_single_clause :
    buildFilters "A" [["A.k", "in", "(", "1", "2", ")"], ["A.j", "=", "5"]] =
      some entsC7 ∧
    getQuery (fun _ => entsC7) "A" ["A"] =
      some [("k", MongoVal.inClause ["1", "2"])] := by
  decide

/-- C8 (code bug): the grammar-accepted textual operator `eq` in the
local predicate `A.col eq 5` produces no filter clause at all: the sieve
in findComparisonOps admits only the symbolic operators, so the token
list has a single surviving element and the function reports no match,
while the same predicate with `=` yields the expected `$eq` clause. -/
theorem c8_textual_operator_no_clause :
    findComparisonOps "A" ["A.col", "eq", "5"] = ("", none) ∧
    findComparisonOps "A" ["A.col", "=", "5"] =
      ("A", some { lhs := "A.col", binop := "$eq", rhs := "5" }) ∧
    buildFilters "A" [["A.col", "eq", "5"]] = some [] := by
  decide

/-- C9 (code bug): buildSelectors does not keep the full column name of
a `T.`-qualified entry, nor restrict itself to entries qualified with T:
its regex stops the capture at `_` (and `$`), truncating `A.my_col` to
`my`, and matches the table name anywhere in the entry, so table A
collects `col` from `BA.col`. -/
theorem c9_selector_truncation :
    buildSelectors "A" ["A.my_col"] = ["my"] ∧
    buildSelectors "A" ["BA.col"] = ["col"] := by
  decide

/-- C10 (code bug): on malformed input the parse wrapper catches the
ParseException, prints the caret line and message, and then executes
`return tokens` with `tokens` unbound, so the caller receives a bare
NameError rather than a ParseError carrying the offset and message. -/
theorem c10_parse_surfaces_name_error :
    parse parseFailStub "bogus" =
      (["   ^\nExpected select", "Expected select"], PyOutcome.nameError) := by
  decide
